import Mathlib

/-!
Verification of the version-resolution core of `versioneer.py`.

The Python source is shallowly embedded over an explicit `World` record that
captures the ambient filesystem and version-control state consulted by the
resolver: whether `os.path.isdir(".git")` holds, the outcome of spawning
`git describe`, the text files that can be opened, and the name of the
directory containing the running script.

Python `None`-or-string results are modelled as `Option String`; the
`NoVersionError` raised by `get_best_version` (src line 312) is modelled as
the result `none` (the function otherwise never returns Python `None`).
Python strings are modelled as Lean `String`, with the character-level
operations (`strip`, `split`, `startswith`, slicing, the two regexes) spelled
out structurally over `List Char` so that everything evaluates by `decide`.

Python 2 byte-wise lexicographic string comparison coincides with
codepoint-wise comparison on UTF-8 data, which `listLe` implements.
-/

/-- Ambient state consulted by the resolver during one call:
`gitDir` models `os.path.isdir(".git")`; `spawnOk`, `exitCode`, `stdoutRaw`
and `spawnErrMsg` model the outcome of `subprocess.Popen(["git", "describe",
"--tags", "--dirty", "--always"])` (src lines 103-116): `spawnOk = false`
means `Popen` raised `EnvironmentError`; `files` models which text files can
be opened and their `readlines()` contents; `scriptDirName` models
`os.path.basename(os.path.dirname(os.path.abspath(me)))` (src lines 245-250). -/
structure World where
  gitDir : Bool
  spawnOk : Bool
  exitCode : Int
  stdoutRaw : String
  spawnErrMsg : String
  files : String → Option (List String)
  scriptDirName : String

/-- Python 2 `str.strip()` whitespace set: space, tab, newline, carriage
return, vertical tab, form feed (also the `\s` class of its `re` module
for plain byte strings). -/
def isPySpace (c : Char) : Bool :=
  (c == ' ') || (c == '\t') || (c == '\n') || (c == '\r') || (c == '\x0b') || (c == '\x0c')

/-- Python `str.strip()` on the character list of a string. -/
def pyStripList (cs : List Char) : List Char :=
  ((cs.dropWhile isPySpace).reverse.dropWhile isPySpace).reverse

/-- Membership test for the two paren characters, for `str.strip("()")`. -/
def isParen (c : Char) : Bool := (c == '(') || (c == ')')

/-- Python `str.strip("()")`: remove leading and trailing parens. -/
def stripParens (cs : List Char) : List Char :=
  ((cs.dropWhile isParen).reverse.dropWhile isParen).reverse

/-- Python `str.split(",")`: split at every comma, keeping empty pieces. -/
def splitComma : List Char → List (List Char)
  | [] => [[]]
  | c :: rest =>
    if c = ',' then [] :: splitComma rest
    else
      match splitComma rest with
      | [] => [[c]]
      | g :: gs => (c :: g) :: gs

/-- Python substring containment `pat in s`. -/
def containsSub (pat : List Char) : List Char → Bool
  | [] => pat.isEmpty
  | c :: rest => pat.isPrefixOf (c :: rest) || containsSub pat rest

/-- Byte-wise (codepoint-wise) lexicographic `<=` on character lists,
matching Python 2 string comparison used by `sorted`. -/
def listLe : List Char → List Char → Bool
  | [], _ => true
  | _ :: _, [] => false
  | a :: as, b :: bs => if a < b then true else if b < a then false else listLe as bs

/-- Lexicographic order on strings as the propositional form of `listLe`. -/
def strLe (a b : String) : Prop := listLe a.data b.data = true

instance : DecidableRel strLe := fun a b =>
  inferInstanceAs (Decidable (listLe a.data b.data = true))

/-- The literal unexpanded template marker tested by `"$Format" in s`
(src line 199). -/
def FORMAT_MARKER : List Char := "$Format".data

/-- The argument vector of the single external process the resolver may
spawn (src lines 186-187). -/
def GIT_DESCRIBE_ARGS : List String := ["git", "describe", "--tags", "--dirty", "--always"]

/-- Literal head of a plain version line, `__version__ = ` followed by an
opening single quote (the anchored part of the regex at src line 236). -/
def versionLineHead : List Char := "__version__ = ".data ++ ['\'']

/-- Embedding of `run_command` (src lines 103-116) for the fixed
`git describe` argument vector: `None` on spawn failure, the stripped
standard output checked against the return code otherwise.  The `verbose`
prints do not affect the result and are modelled separately. -/
def run_command (w : World) : Option String :=
  if w.spawnOk = false then none
  else
    let stdout := String.mk (pyStripList w.stdoutRaw.data)
    if w.exitCode ≠ 0 then none else some stdout

/-- Embedding of `version_from_vcs` (src lines 181-195).  The parameter
`tagPfx` is the source's `tag_prefix`. -/
def version_from_vcs (w : World) (tagPfx : String) : Option String :=
  if w.gitDir = false then none
  else
    match run_command w with
    | none => none
    | some stdout =>
      if tagPfx.data.isPrefixOf stdout.data then
        some (String.mk (stdout.data.drop tagPfx.data.length))
      else none

/-- The ref list `[r.strip() for r in s.strip().strip("()").split(",")]`
built at src line 201 (the outer `strip` is the reassignment at line 198). -/
def parsedRefs (s : String) : List String :=
  (splitComma (stripParens (pyStripList s.data))).map (fun r => String.mk (pyStripList r))

/-- The refs actually iterated by the source: the set of parsed refs with
the literals `"HEAD"` and `"master"` discarded (src lines 201-202); the
`set(...)` is modelled by `dedup` (its iteration order is irrelevant because
the source sorts before scanning). -/
def codeRefs (s : String) : List String :=
  (parsedRefs s).dedup.filter (fun r => !(r == "HEAD") && !(r == "master"))

/-- Embedding of `version_from_expanded_variable` (src lines 197-206):
delegate to `version_from_vcs` when the unexpanded marker is present,
otherwise scan the sorted ref set in reverse for the first ref carrying the
tag prefix, returning `"unknown"` when none does. -/
def version_from_expanded_variable (w : World) (s tagPfx : String) : Option String :=
  if containsSub FORMAT_MARKER (pyStripList s.data) then version_from_vcs w tagPfx
  else
    match (List.insertionSort strLe (codeRefs s)).reverse.find?
        (fun r => tagPfx.data.isPrefixOf r.data) with
    | some r => some (String.mk (r.data.drop tagPfx.data.length))
    | none => some "unknown"

/-- Matching of one line against the anchored regex
`__version__ = '([^']+)'` (src line 236): the literal head, then a
non-empty maximal run of non-quote characters, then a closing quote. -/
def matchVersionChars (cs : List Char) : Option (List Char) :=
  if versionLineHead.isPrefixOf cs then
    let rest := cs.drop versionLineHead.length
    let ver := rest.takeWhile (fun ch => ch != '\'')
    if ver.isEmpty then none
    else if (rest.dropWhile (fun ch => ch != '\'')).isEmpty then none
    else some ver
  else none

/-- Embedding of `version_from_file` (src lines 230-240): `None` when the
file cannot be opened, otherwise the group of the first line matching the
version regex. -/
def version_from_file (w : World) (filename : String) : Option String :=
  match w.files filename with
  | none => none
  | some lines => lines.findSome? (fun line => (matchVersionChars line.data).map String.mk)

/-- Embedding of `version_from_parentdir` (src lines 242-256).  `tagPfx`
mirrors the unused `tag_prefix` parameter of the source; `pdPfx` is its
`parentdir_prefix`. -/
def version_from_parentdir (w : World) (tagPfx pdPfx : String) : Option String :=
  let dirname := w.scriptDirName
  if pdPfx.data.isPrefixOf dirname.data then
    some (String.mk (dirname.data.drop pdPfx.data.length))
  else none

/-- Embedding of `re.search(r'=\s*"(.*)"', line)` returning group 1
(src line 271): scan for the leftmost `=` followed by optional whitespace
and an opening quote such that a closing quote occurs later on the line
(`.` does not cross a newline); the greedy group extends to the last
quote of that segment.  On failure at one `=`, the search continues at the
following positions. -/
def reSearchEq : List Char → Option (List Char)
  | [] => none
  | c :: rest =>
    if c = '=' then
      match rest.dropWhile isPySpace with
      | '"' :: tail =>
        let seg := tail.takeWhile (fun ch => ch != '\n')
        if seg.contains '"' then
          some ((seg.reverse.dropWhile (fun ch => ch != '"')).drop 1).reverse
        else reSearchEq rest
      | _ => reSearchEq rest
    else reSearchEq rest

/-- Embedding of `get_expanded_variable` (src lines 264-276): the regex
group of the first line whose stripped form starts with `verstr =` and on
which the search succeeds; `None` when the file cannot be opened or no line
yields a match. -/
def get_expanded_variable (w : World) (vfsrc : String) : Option String :=
  match w.files vfsrc with
  | none => none
  | some lines =>
    lines.findSome? (fun line =>
      if ("verstr =".data).isPrefixOf (pyStripList line.data) then
        (reSearchEq line.data).map String.mk
      else none)

/-- The expanded-variable step of `get_best_version` (src lines 290-295):
the scan runs only when `verstr` is truthy, that is, present and non-empty
(`if verstr:` is false for the empty string). -/
def method2 (w : World) (gvfs tagPfx : String) : Option String :=
  match get_expanded_variable w gvfs with
  | none => none
  | some s => if s = "" then none else version_from_expanded_variable w s tagPfx

/-- Suffix of `get_best_version` from src line 302: parent-directory probe,
then the caller default (`none` models the `NoVersionError` raise). -/
def chain45 (w : World) (tagPfx pdPfx : String) (d : Option String) : Option String :=
  match version_from_parentdir w tagPfx pdPfx with
  | some v => some v
  | none => d

/-- Suffix of `get_best_version` from src line 297: plain version file,
then the later methods. -/
def chain345 (w : World) (vf tagPfx pdPfx : String) (d : Option String) : Option String :=
  match version_from_file w vf with
  | some v => some v
  | none => chain45 w tagPfx pdPfx d

/-- Suffix of `get_best_version` from src line 290: expanded-variable step,
then the later methods. -/
def chain2345 (w : World) (gvfs vf tagPfx pdPfx : String) (d : Option String) : Option String :=
  match method2 w gvfs tagPfx with
  | some v => some v
  | none => chain345 w vf tagPfx pdPfx d

/-- Embedding of `get_best_version` (src lines 278-312).  `vf` is the
explicit `versionfile` argument, read by the plain-version-file method;
`gvfs` models the module-level global `versionfile_source`, which is what
the expanded-variable step reads at src line 290; `d` is the `default`
argument; `none` models raising `NoVersionError`. -/
def get_best_version (w : World) (gvfs vf tagPfx pdPfx : String) (d : Option String) :
    Option String :=
  match version_from_vcs w tagPfx with
  | some v => some v
  | none => chain2345 w gvfs vf tagPfx pdPfx d

/-- First non-`None` element of a list of candidate results. -/
def firstSome (l : List (Option String)) : Option String := l.findSome? id

/-- The refs the specification calls qualifying: parsed refs other than the
discarded literals that carry the tag prefix. -/
def qualifying (s tagPfx : String) : List String :=
  (parsedRefs s).filter
    (fun r => !(r == "HEAD") && !(r == "master") && tagPfx.data.isPrefixOf r.data)

/-- Verbose-instrumented embedding of `run_command`: the result paired with
the diagnostic lines printed (src lines 107-109 and 113-114; message text
abbreviated, the exception text modelled by `spawnErrMsg`). -/
def run_command_v (w : World) (verbose : Bool) : Option String × List String :=
  if w.spawnOk = false then
    (none, if verbose then ["unable to run git", w.spawnErrMsg] else [])
  else
    let stdout := String.mk (pyStripList w.stdoutRaw.data)
    if w.exitCode ≠ 0 then (none, if verbose then ["unable to run git (error)"] else [])
    else (some stdout, [])

/-- Verbose-instrumented embedding of `version_from_vcs` (src lines
181-195).  The source calls `run_command` without passing `verbose`
(src line 186), so that call always uses `verbose = False`. -/
def version_from_vcs_v (w : World) (tagPfx : String) (verbose : Bool) :
    Option String × List String :=
  if w.gitDir = false then
    (none, if verbose then ["This does not appear to be a Git repository."] else [])
  else
    let rc := run_command_v w false
    match rc.1 with
    | none => (none, rc.2)
    | some stdout =>
      if tagPfx.data.isPrefixOf stdout.data then
        (some (String.mk (stdout.data.drop tagPfx.data.length)), rc.2)
      else
        (none, rc.2 ++ (if verbose then ["tag does not start with the configured tag marker"] else []))

/-- Verbose-instrumented embedding of `version_from_parentdir`
(src lines 242-256). -/
def version_from_parentdir_v (w : World) (tagPfx pdPfx : String) (verbose : Bool) :
    Option String × List String :=
  if pdPfx.data.isPrefixOf w.scriptDirName.data then
    (some (String.mk (w.scriptDirName.data.drop pdPfx.data.length)), [])
  else
    (none, if verbose then ["dirname does not start with the configured parentdir marker"] else [])

/-- Verbose-instrumented embedding of `get_best_version` (src lines
278-312), pairing the result with the printed diagnostic lines.  The
expanded-variable step prints nothing of its own, and
`version_from_expanded_variable` takes no verbose flag in the source. -/
def get_best_version_v (w : World) (gvfs vf tagPfx pdPfx : String) (d : Option String)
    (verbose : Bool) : Option String × List String :=
  let m1 := version_from_vcs_v w tagPfx verbose
  match m1.1 with
  | some ver => (some ver, m1.2 ++ if verbose then ["got version from git"] else [])
  | none =>
    match method2 w gvfs tagPfx with
    | some ver => (some ver, m1.2 ++ if verbose then ["got version from expanded variable"] else [])
    | none =>
      match version_from_file w vf with
      | some ver => (some ver, m1.2 ++ if verbose then ["got version from file " ++ vf] else [])
      | none =>
        let m4 := version_from_parentdir_v w tagPfx pdPfx verbose
        match m4.1 with
        | some ver => (some ver, m1.2 ++ m4.2 ++ if verbose then ["got version from parentdir"] else [])
        | none =>
          match d with
          | some ver => (some ver, m1.2 ++ m4.2 ++ if verbose then ["got version from default"] else [])
          | none => (none, m1.2 ++ m4.2)

/-- Observable side effects of one resolution call: spawning an external
process, testing a directory with `os.path.isdir`, opening a file for
reading, or opening a file for writing.  The resolver never performs the
last one; the constructor exists so that its absence is a statement about
the code rather than about the vocabulary. -/
inductive Effect where
  | spawn (args : List String)
  | statDir (path : String)
  | fileRead (path : String)
  | fileWrite (path : String)
deriving DecidableEq

/-- Effect-traced embedding of `version_from_vcs`: one `isdir(".git")`
test always (src line 182), and one `Popen` attempt with the fixed
`git describe` argument vector exactly when the directory test passes
(src lines 105, 186-187). -/
def version_from_vcs_t (w : World) (tagPfx : String) : Option String × List Effect :=
  (version_from_vcs w tagPfx,
   Effect.statDir ".git" :: if w.gitDir then [Effect.spawn GIT_DESCRIBE_ARGS] else [])

/-- Effect-traced embedding of `version_from_expanded_variable`: pure
string processing, except for the delegated `version_from_vcs` call in the
unexpanded-marker case (src line 200). -/
def version_from_expanded_variable_t (w : World) (s tagPfx : String) :
    Option String × List Effect :=
  if containsSub FORMAT_MARKER (pyStripList s.data) then version_from_vcs_t w tagPfx
  else (version_from_expanded_variable w s tagPfx, [])

/-- Effect-traced embedding of the expanded-variable step of
`get_best_version` (src lines 290-295): one attempted read of the file
named by the `versionfile_source` global (src line 269), then the scan. -/
def method2_t (w : World) (gvfs tagPfx : String) : Option String × List Effect :=
  match get_expanded_variable w gvfs with
  | none => (none, [Effect.fileRead gvfs])
  | some s =>
    if s = "" then (none, [Effect.fileRead gvfs])
    else
      let r := version_from_expanded_variable_t w s tagPfx
      (r.1, Effect.fileRead gvfs :: r.2)

/-- Effect-traced embedding of `version_from_file`: one attempted read of
the named file (src line 232). -/
def version_from_file_t (w : World) (filename : String) : Option String × List Effect :=
  (version_from_file w filename, [Effect.fileRead filename])

/-- Effect-traced embedding of `version_from_parentdir`: no file access
(src lines 242-256 only inspect path strings already in memory). -/
def version_from_parentdir_t (w : World) (tagPfx pdPfx : String) : Option String × List Effect :=
  (version_from_parentdir w tagPfx pdPfx, [])

/-- Effect-traced embedding of `get_best_version` (src lines 278-312): the
result together with the concatenated effects of the methods actually
attempted, in order. -/
def get_best_version_t (w : World) (gvfs vf tagPfx pdPfx : String) (d : Option String) :
    Option String × List Effect :=
  let m1 := version_from_vcs_t w tagPfx
  match m1.1 with
  | some v => (some v, m1.2)
  | none =>
    let m2 := method2_t w gvfs tagPfx
    match m2.1 with
    | some v => (some v, m1.2 ++ m2.2)
    | none =>
      let m3 := version_from_file_t w vf
      match m3.1 with
      | some v => (some v, m1.2 ++ m2.2 ++ m3.2)
      | none =>
        let m4 := version_from_parentdir_t w tagPfx pdPfx
        match m4.1 with
        | some v => (some v, m1.2 ++ m2.2 ++ m3.2 ++ m4.2)
        | none => (d, m1.2 ++ m2.2 ++ m3.2 ++ m4.2)

/-- World with no git checkout, no readable files, and a parent directory
name that matches nothing. -/
def wEmpty : World :=
  ⟨false, true, 0, "", "", fun _ => none, "somedir"⟩

/-- Git checkout whose `git describe` output is `v1.2`. -/
def wVcsGood : World :=
  ⟨true, true, 0, "v1.2", "", fun _ => none, "somedir"⟩

/-- Git checkout whose `git describe` output is `xyz` (no tag prefix). -/
def wVcsBad : World :=
  ⟨true, true, 0, "xyz", "", fun _ => none, "somedir"⟩

/-- Git checkout where spawning the external tool fails. -/
def wSpawnFail : World :=
  ⟨true, false, 0, "", "boom", fun _ => none, "somedir"⟩

/-- Non-checkout whose file `G` carries the literal unexpanded marker. -/
def wMarker : World :=
  ⟨false, true, 0, "", "",
   fun f => if f = "G" then some ["verstr = \"$Format:%d$\"\n"] else none, "somedir"⟩

/-- The text line `__version__ = 'from3'` followed by a newline. -/
def lineVersionFrom3 : String :=
  String.mk (versionLineHead ++ "from3".data ++ ['\'', '\n'])

/-- Non-checkout whose file `F` holds an expanded variable that is the
empty string and, further down, a plain version line. -/
def wEmptyVerstr : World :=
  ⟨false, true, 0, "", "",
   fun f => if f = "F" then some ["verstr = \"\"\n", lineVersionFrom3] else none, "somedir"⟩

/-- Non-checkout with two different expanded-variable files `A` and `B`. -/
def wTwoFiles : World :=
  ⟨false, true, 0, "", "",
   fun f =>
     if f = "A" then some ["verstr = \"(v1.0, HEAD)\"\n"]
     else if f = "B" then some ["verstr = \"(v2.0, HEAD)\"\n"]
     else none, "somedir"⟩

/-- Non-checkout whose file `P` holds a plain version line only. -/
def wPlainFile : World :=
  ⟨false, true, 0, "", "",
   fun f => if f = "P" then some [lineVersionFrom3] else none, "somedir"⟩

/-- Variant of `wTwoFiles` that differs only in state the resolver never
consults for the call under test: an extra unrelated file `Z` and a
different recorded spawn-error text. -/
def wTwoFilesNoise : World :=
  ⟨false, true, 0, "", "other",
   fun f =>
     if f = "A" then some ["verstr = \"(v1.0, HEAD)\"\n"]
     else if f = "B" then some ["verstr = \"(v2.0, HEAD)\"\n"]
     else if f = "Z" then some ["noise\n"]
     else none, "somedir"⟩

theorem listLe_cons (a b : Char) (as bs : List Char) :
    listLe (a :: as) (b :: bs) = true ↔ a < b ∨ (a = b ∧ listLe as bs = true) := by
  by_cases h1 : a < b
  · simp [listLe, h1]
  · by_cases h2 : b < a
    · have hne : a ≠ b := fun h => absurd (h ▸ h2) (lt_irrefl a)
      simp [listLe, h1, h2, hne]
    · have heq : a = b := le_antisymm (not_lt.mp h2) (not_lt.mp h1)
      simp [listLe, h1, h2, heq]

theorem listLe_refl : ∀ l : List Char, listLe l l = true
  | [] => rfl
  | a :: as => by simp [listLe, lt_irrefl a, listLe_refl as]

theorem listLe_total : ∀ x y : List Char, listLe x y = true ∨ listLe y x = true
  | [], _ => Or.inl rfl
  | _ :: _, [] => Or.inr rfl
  | a :: as, b :: bs => by
    rcases lt_trichotomy a b with h | h | h
    · exact Or.inl ((listLe_cons a b as bs).mpr (Or.inl h))
    · subst h
      rcases listLe_total as bs with h2 | h2
      · exact Or.inl ((listLe_cons a a as bs).mpr (Or.inr ⟨rfl, h2⟩))
      · exact Or.inr ((listLe_cons a a bs as).mpr (Or.inr ⟨rfl, h2⟩))
    · exact Or.inr ((listLe_cons b a bs as).mpr (Or.inl h))

theorem listLe_trans : ∀ x y z : List Char,
    listLe x y = true → listLe y z = true → listLe x z = true
  | [], _, _, _, _ => rfl
  | _ :: _, [], _, h1, _ => by simp [listLe] at h1
  | _ :: _, _ :: _, [], _, h2 => by simp [listLe] at h2
  | a :: as, b :: bs, c :: cs, h1, h2 => by
    rcases (listLe_cons a b as bs).mp h1 with hab | ⟨hab, h1t⟩
    · rcases (listLe_cons b c bs cs).mp h2 with hbc | ⟨hbc, h2t⟩
      · exact (listLe_cons a c as cs).mpr (Or.inl (lt_trans hab hbc))
      · exact (listLe_cons a c as cs).mpr (Or.inl (hbc ▸ hab))
    · subst hab
      rcases (listLe_cons a c bs cs).mp h2 with hbc | ⟨hbc, h2t⟩
      · exact (listLe_cons a c as cs).mpr (Or.inl hbc)
      · exact (listLe_cons a c as cs).mpr (Or.inr ⟨hbc, listLe_trans as bs cs h1t h2t⟩)

theorem listLe_antisymm : ∀ x y : List Char,
    listLe x y = true → listLe y x = true → x = y
  | [], [], _, _ => rfl
  | [], _ :: _, _, h2 => by simp [listLe] at h2
  | _ :: _, [], h1, _ => by simp [listLe] at h1
  | a :: as, b :: bs, h1, h2 => by
    rcases (listLe_cons a b as bs).mp h1 with hab | ⟨hab, h1t⟩
    · rcases (listLe_cons b a bs as).mp h2 with hba | ⟨hba, h2t⟩
      · exact absurd hba (lt_asymm hab)
      · rw [hba] at hab
        exact absurd hab (lt_irrefl a)
    · subst hab
      rcases (listLe_cons a a bs as).mp h2 with hba | ⟨_, h2t⟩
      · exact absurd hba (lt_irrefl a)
      · rw [listLe_antisymm as bs h1t h2t]

theorem strLe_refl (a : String) : strLe a a := listLe_refl a.data

instance : IsTotal String strLe := ⟨fun a b => listLe_total a.data b.data⟩

instance : IsTrans String strLe :=
  ⟨fun a b c h1 h2 => listLe_trans a.data b.data c.data h1 h2⟩

instance : IsAntisymm String strLe := by
  refine ⟨fun a b h1 h2 => ?_⟩
  cases a with
  | mk da => cases b with
    | mk db => exact congrArg String.mk (listLe_antisymm da db h1 h2)

theorem find_desc (p : String → Bool) :
    ∀ l : List String, l.Sorted (fun a b => strLe b a) →
      ((∀ r, l.find? p = some r → p r = true ∧ r ∈ l ∧ ∀ y ∈ l, p y = true → strLe y r) ∧
       (l.find? p = none → ∀ y ∈ l, p y = false))
  | [], _ => by
    constructor
    · intro r hr
      simp at hr
    · intro _ y hy
      exact absurd hy (List.not_mem_nil y)
  | h :: t, hs => by
    have hs2 := List.sorted_cons.mp hs
    by_cases hp : p h = true
    · constructor
      · intro r hr
        rw [List.find?_cons_of_pos t hp] at hr
        have hrh : h = r := Option.some.inj hr
        subst hrh
        refine ⟨hp, List.mem_cons_self h t, ?_⟩
        intro y hy _
        rcases List.mem_cons.mp hy with hyh | hyt
        · subst hyh
          exact strLe_refl y
        · exact hs2.1 y hyt
      · intro hn
        rw [List.find?_cons_of_pos t hp] at hn
        exact absurd hn (by simp)
    · have ih := find_desc p t hs2.2
      constructor
      · intro r hr
        rw [List.find?_cons_of_neg t hp] at hr
        obtain ⟨hpr, hmem, hmax⟩ := ih.1 r hr
        refine ⟨hpr, List.mem_cons_of_mem h hmem, ?_⟩
        intro y hy hpy
        rcases List.mem_cons.mp hy with hyh | hyt
        · subst hyh
          exact absurd hpy hp
        · exact hmax y hyt hpy
      · intro hn
        rw [List.find?_cons_of_neg t hp] at hn
        intro y hy
        rcases List.mem_cons.mp hy with hyh | hyt
        · rw [hyh]
          cases hb : p h with
          | false => rfl
          | true => exact absurd hb hp
        · exact ih.2 hn y hyt

theorem mem_codeRefs (s r : String) :
    r ∈ codeRefs s ↔ r ∈ parsedRefs s ∧ r ≠ "HEAD" ∧ r ≠ "master" := by
  unfold codeRefs
  simp [List.mem_filter, List.mem_dedup, and_assoc]

theorem mem_qualifying (s tagPfx r : String) :
    r ∈ qualifying s tagPfx ↔
      (r ∈ parsedRefs s ∧ r ≠ "HEAD" ∧ r ≠ "master") ∧
        tagPfx.data.isPrefixOf r.data = true := by
  unfold qualifying
  simp [List.mem_filter, and_assoc]

theorem vfev_no_marker (w : World) (s tagPfx : String)
    (hm : containsSub FORMAT_MARKER (pyStripList s.data) = false) :
    version_from_expanded_variable w s tagPfx =
      match (List.insertionSort strLe (codeRefs s)).reverse.find?
          (fun r => tagPfx.data.isPrefixOf r.data) with
      | some r => some (String.mk (r.data.drop tagPfx.data.length))
      | none => some "unknown" := by
  unfold version_from_expanded_variable
  rw [hm]
  simp

/-- C2: in the expanded-variable scan with no unexpanded marker, the
result is always present: the lexicographically greatest parsed ref that is
neither `HEAD` nor `master` and starts with the tag prefix, with the prefix
stripped, or the literal `"unknown"` when no ref qualifies; and the
selection depends only on the multiset of parsed refs, not on their order
in the list. -/
theorem C2_expanded_selection (w : World) (s tagPfx : String)
    (hm : containsSub FORMAT_MARKER (pyStripList s.data) = false) :
    ((qualifying s tagPfx = [] →
        version_from_expanded_variable w s tagPfx = some "unknown") ∧
     (qualifying s tagPfx ≠ [] →
        ∃ r, r ∈ qualifying s tagPfx ∧ (∀ y ∈ qualifying s tagPfx, strLe y r) ∧
          version_from_expanded_variable w s tagPfx =
            some (String.mk (r.data.drop tagPfx.data.length)))) ∧
    (∀ s2, containsSub FORMAT_MARKER (pyStripList s2.data) = false →
       List.Perm (parsedRefs s) (parsedRefs s2) →
       version_from_expanded_variable w s tagPfx =
         version_from_expanded_variable w s2 tagPfx) := by
  have hsort : (List.insertionSort strLe (codeRefs s)).Sorted strLe :=
    List.sorted_insertionSort strLe (codeRefs s)
  have hrev : (List.insertionSort strLe (codeRefs s)).reverse.Sorted (fun a b => strLe b a) :=
    List.pairwise_reverse.mpr hsort
  have hperm := List.perm_insertionSort strLe (codeRefs s)
  have hmem : ∀ x : String,
      x ∈ (List.insertionSort strLe (codeRefs s)).reverse ↔ x ∈ codeRefs s := by
    intro x
    rw [List.mem_reverse]
    exact hperm.mem_iff
  have hfd := find_desc (fun r => tagPfx.data.isPrefixOf r.data)
      (List.insertionSort strLe (codeRefs s)).reverse hrev
  refine ⟨⟨?_, ?_⟩, ?_⟩
  · intro hq
    cases hfind : (List.insertionSort strLe (codeRefs s)).reverse.find?
        (fun r => tagPfx.data.isPrefixOf r.data) with
    | none => rw [vfev_no_marker w s tagPfx hm, hfind]
    | some r =>
      obtain ⟨hpr, hmemr, _⟩ := hfd.1 r hfind
      have hrq : r ∈ qualifying s tagPfx := by
        rw [mem_qualifying]
        exact ⟨(mem_codeRefs s r).mp ((hmem r).mp hmemr), hpr⟩
      rw [hq] at hrq
      exact absurd hrq (List.not_mem_nil r)
  · intro hq
    obtain ⟨q, hqmem⟩ := List.exists_mem_of_ne_nil _ hq
    cases hfind : (List.insertionSort strLe (codeRefs s)).reverse.find?
        (fun r => tagPfx.data.isPrefixOf r.data) with
    | none =>
      have hqc := (mem_qualifying s tagPfx q).mp hqmem
      have hqm : q ∈ (List.insertionSort strLe (codeRefs s)).reverse :=
        (hmem q).mpr ((mem_codeRefs s q).mpr hqc.1)
      have hfalse : tagPfx.data.isPrefixOf q.data = false := hfd.2 hfind q hqm
      rw [hqc.2] at hfalse
      exact absurd hfalse (by decide)
    | some r =>
      obtain ⟨hpr, hmemr, hmax⟩ := hfd.1 r hfind
      refine ⟨r, ?_, ?_, ?_⟩
      · rw [mem_qualifying]
        exact ⟨(mem_codeRefs s r).mp ((hmem r).mp hmemr), hpr⟩
      · intro y hy
        have hyc := (mem_qualifying s tagPfx y).mp hy
        exact hmax y ((hmem y).mpr ((mem_codeRefs s y).mpr hyc.1)) hyc.2
      · rw [vfev_no_marker w s tagPfx hm, hfind]
  · intro s2 hm2 hpm
    have hcr : List.Perm (codeRefs s) (codeRefs s2) := (hpm.dedup).filter _
    have hsorteq :
        List.insertionSort strLe (codeRefs s) = List.insertionSort strLe (codeRefs s2) :=
      List.eq_of_perm_of_sorted
        ((List.perm_insertionSort strLe (codeRefs s)).trans
          (hcr.trans (List.perm_insertionSort strLe (codeRefs s2)).symm))
        (List.sorted_insertionSort strLe (codeRefs s))
        (List.sorted_insertionSort strLe (codeRefs s2))
    rw [vfev_no_marker w s tagPfx hm, vfev_no_marker w s2 tagPfx hm2, hsorteq]

/-- Witness for C2 at a concrete ref list: among `v2.0`, `v1.0`, `HEAD`,
`master` with tag prefix `v`, the scan selects `v2.0` and returns `2.0`. -/
theorem C2_expanded_selection_witness :
    (∃ r, r ∈ qualifying "(v2.0, v1.0, HEAD, master)" "v" ∧
       (∀ y ∈ qualifying "(v2.0, v1.0, HEAD, master)" "v", strLe y r) ∧
       version_from_expanded_variable wEmpty "(v2.0, v1.0, HEAD, master)" "v" =
         some (String.mk (r.data.drop "v".data.length))) ∧
    version_from_expanded_variable wEmpty "(v2.0, v1.0, HEAD, master)" "v" = some "2.0" :=
  ⟨((C2_expanded_selection wEmpty "(v2.0, v1.0, HEAD, master)" "v" (by decide)).1).2
      (by decide),
   by decide⟩

/-- C1: the resolver tries VCS describe, expanded-variable scan, plain
version file, parent-directory name, and the caller default in that fixed
order, returns the first present result, and yields the distinguished
failure (modelled as `none`, the `NoVersionError` raise) exactly when all
five are absent; with every method absent the configured default is
returned as is. -/
theorem C1_resolution_order (w : World) (gvfs vf tagPfx pdPfx : String) (d : Option String) :
    get_best_version w gvfs vf tagPfx pdPfx d =
      firstSome [version_from_vcs w tagPfx, method2 w gvfs tagPfx,
        version_from_file w vf, version_from_parentdir w tagPfx pdPfx, d] ∧
    (get_best_version w gvfs vf tagPfx pdPfx d = none ↔
      version_from_vcs w tagPfx = none ∧ method2 w gvfs tagPfx = none ∧
      version_from_file w vf = none ∧ version_from_parentdir w tagPfx pdPfx = none ∧
      d = none) ∧
    (version_from_vcs w tagPfx = none → method2 w gvfs tagPfx = none →
      version_from_file w vf = none → version_from_parentdir w tagPfx pdPfx = none →
      get_best_version w gvfs vf tagPfx pdPfx d = d) := by
  cases h1 : version_from_vcs w tagPfx <;>
    cases h2 : method2 w gvfs tagPfx <;>
      cases h3 : version_from_file w vf <;>
        cases h4 : version_from_parentdir w tagPfx pdPfx <;>
          cases d <;>
            simp [get_best_version, chain2345, chain345, chain45, firstSome,
              List.findSome?_cons, h1, h2, h3, h4]

/-- Witness for C1: with every probe inapplicable the configured default
comes back. -/
theorem C1_resolution_order_witness :
    get_best_version wEmpty "A" "B" "v" "zz-" (some "D") = some "D" :=
  (C1_resolution_order wEmpty "A" "B" "v" "zz-" (some "D")).2.2
    (by decide) (by decide) (by decide) (by decide)

/-- C3: the VCS-describe method yields no result (rather than an error)
when there is no `.git` metadata directory or when the describe output does
not start with the tag prefix, and strips the prefix from the output when
it does. -/
theorem C3_vcs_applicability (w : World) (tagPfx : String) :
    (w.gitDir = false → version_from_vcs w tagPfx = none) ∧
    (∀ out, run_command w = some out → tagPfx.data.isPrefixOf out.data = false →
       version_from_vcs w tagPfx = none) ∧
    (∀ out, w.gitDir = true → run_command w = some out →
       tagPfx.data.isPrefixOf out.data = true →
       version_from_vcs w tagPfx = some (String.mk (out.data.drop tagPfx.data.length))) := by
  refine ⟨?_, ?_, ?_⟩
  · intro h
    simp [version_from_vcs, h]
  · intro out hrc hpre
    cases hg : w.gitDir <;> simp [version_from_vcs, hg, hrc, hpre]
  · intro out hg hrc hpre
    simp [version_from_vcs, hg, hrc, hpre]

/-- Witness for C3 at three concrete worlds: no checkout, mismatched
describe output, matching describe output. -/
theorem C3_vcs_applicability_witness :
    version_from_vcs wEmpty "v" = none ∧ version_from_vcs wVcsBad "v" = none ∧
    version_from_vcs wVcsGood "v" = some (String.mk ("v1.2".data.drop "v".data.length)) :=
  ⟨(C3_vcs_applicability wEmpty "v").1 rfl,
   (C3_vcs_applicability wVcsBad "v").2.1 "xyz" (by decide) (by decide),
   (C3_vcs_applicability wVcsGood "v").2.2 "v1.2" rfl (by decide) (by decide)⟩

/-- C4: with the literal unexpanded marker present the expanded-variable
scan delegates to the VCS-describe method, and when that delegated call is
also absent the overall resolution continues with the plain version file,
parent-directory and default methods. -/
theorem C4_marker_delegation (w : World) (tagPfx : String) :
    (∀ s, containsSub FORMAT_MARKER (pyStripList s.data) = true →
       version_from_expanded_variable w s tagPfx = version_from_vcs w tagPfx) ∧
    (∀ gvfs vf pdPfx d s, version_from_vcs w tagPfx = none →
       get_expanded_variable w gvfs = some s → s ≠ "" →
       containsSub FORMAT_MARKER (pyStripList s.data) = true →
       get_best_version w gvfs vf tagPfx pdPfx d = chain345 w vf tagPfx pdPfx d) := by
  constructor
  · intro s hm
    simp [version_from_expanded_variable, hm]
  · intro gvfs vf pdPfx d s h1 hge hs hm
    simp [get_best_version, chain2345, method2, h1, hge, hs,
      version_from_expanded_variable, hm]

/-- Witness for C4 at a file holding the literal `$Format:%d$` marker in a
non-checkout. -/
theorem C4_marker_delegation_witness :
    version_from_expanded_variable wMarker "$Format:%d$" "v" = version_from_vcs wMarker "v" ∧
    get_best_version wMarker "G" "H" "v" "zz-" (some "D") =
      chain345 wMarker "H" "v" "zz-" (some "D") :=
  ⟨(C4_marker_delegation wMarker "v").1 "$Format:%d$" (by decide),
   (C4_marker_delegation wMarker "v").2 "G" "H" "zz-" (some "D") "$Format:%d$"
     (by decide) (by decide) (by decide) (by decide)⟩

/-- C5 counterexample: in `wEmptyVerstr` the expanded-variable extraction
yields the empty string, and the scan applied to it would produce the
present result `"unknown"`; but the resolver skips the scan (the truthiness
test at src line 291 treats the empty string like absence) and returns the
plain-file value `"from3"` instead. -/
theorem C5_counterexample :
    get_expanded_variable wEmptyVerstr "F" = some "" ∧
    version_from_expanded_variable wEmptyVerstr "" "v" = some "unknown" ∧
    get_best_version wEmptyVerstr "F" "F" "v" "zz-" none = some "from3" ∧
    (some "from3" : Option String) ≠ some "unknown" :=
  ⟨by decide, by decide, by decide, by decide⟩

/-- C5 as amended: a present-but-empty expanded variable is treated like an
absent one — the resolver skips the scan and proceeds directly to the plain
version file, because the presence test at src line 291 is truthiness-based
and the empty string is falsy. -/
theorem C5_empty_string_skips_method2 (w : World) (gvfs vf tagPfx pdPfx : String)
    (d : Option String) (h1 : version_from_vcs w tagPfx = none)
    (hge : get_expanded_variable w gvfs = some "") :
    method2 w gvfs tagPfx = none ∧
    get_best_version w gvfs vf tagPfx pdPfx d = chain345 w vf tagPfx pdPfx d := by
  have hm2 : method2 w gvfs tagPfx = none := by simp [method2, hge]
  exact ⟨hm2, by simp [get_best_version, chain2345, h1, hm2]⟩

/-- Witness for the amended C5 at the concrete world of the
counterexample. -/
theorem C5_empty_string_skips_method2_witness :
    method2 wEmptyVerstr "F" "v" = none ∧
    get_best_version wEmptyVerstr "F" "F" "v" "zz-" none =
      chain345 wEmptyVerstr "F" "v" "zz-" none :=
  C5_empty_string_skips_method2 wEmptyVerstr "F" "F" "v" "zz-" none (by decide) (by decide)

/-- C6: a spawn failure or a non-zero exit status of the external tool is
absorbed as an absent result for the VCS-describe method, and the resolver
simply continues with the remaining methods. -/
theorem C6_tool_failure_absorbed (w : World) (tagPfx : String)
    (h : w.spawnOk = false ∨ w.exitCode ≠ 0) :
    run_command w = none ∧ version_from_vcs w tagPfx = none ∧
    (∀ gvfs vf pdPfx d, get_best_version w gvfs vf tagPfx pdPfx d =
       chain2345 w gvfs vf tagPfx pdPfx d) := by
  have hrc : run_command w = none := by
    rcases h with h | h
    · simp [run_command, h]
    · cases hs : w.spawnOk
      · simp [run_command, hs]
      · simp [run_command, hs, h]
  have hv : version_from_vcs w tagPfx = none := by
    cases hg : w.gitDir <;> simp [version_from_vcs, hg, hrc]
  refine ⟨hrc, hv, ?_⟩
  intro gvfs vf pdPfx d
  simp [get_best_version, hv]

/-- Witness for C6 at a checkout whose tool cannot be spawned. -/
theorem C6_tool_failure_absorbed_witness :
    run_command wSpawnFail = none ∧ version_from_vcs wSpawnFail "v" = none ∧
    get_best_version wSpawnFail "A" "B" "v" "zz-" none =
      chain2345 wSpawnFail "A" "B" "v" "zz-" none :=
  ⟨(C6_tool_failure_absorbed wSpawnFail "v" (Or.inl rfl)).1,
   (C6_tool_failure_absorbed wSpawnFail "v" (Or.inl rfl)).2.1,
   (C6_tool_failure_absorbed wSpawnFail "v" (Or.inl rfl)).2.2 "A" "B" "zz-" none⟩

/-- C7 counterexample: two calls of `get_best_version` over the same world
with identical explicit arguments but different values of the modelled
`versionfile_source` global return different versions, so the result is not
determined by the explicit arguments alone — the expanded-variable scan
reads the file named by the global, not the `versionfile` argument. -/
theorem C7_counterexample :
    get_best_version wTwoFiles "A" "C" "v" "zz-" (some "D") = some "1.0" ∧
    get_best_version wTwoFiles "B" "C" "v" "zz-" (some "D") = some "2.0" ∧
    get_best_version wTwoFiles "A" "C" "v" "zz-" (some "D") ≠
      get_best_version wTwoFiles "B" "C" "v" "zz-" (some "D") :=
  ⟨by decide, by decide, by decide⟩

theorem run_command_congr (w w2 : World) (h1 : w.spawnOk = w2.spawnOk)
    (h2 : w.exitCode = w2.exitCode) (h3 : w.stdoutRaw = w2.stdoutRaw) :
    run_command w = run_command w2 := by
  unfold run_command
  rw [h1, h2, h3]

theorem version_from_vcs_congr (w w2 : World) (tagPfx : String)
    (h0 : w.gitDir = w2.gitDir) (h1 : w.spawnOk = w2.spawnOk)
    (h2 : w.exitCode = w2.exitCode) (h3 : w.stdoutRaw = w2.stdoutRaw) :
    version_from_vcs w tagPfx = version_from_vcs w2 tagPfx := by
  unfold version_from_vcs
  rw [h0, run_command_congr w w2 h1 h2 h3]

theorem get_expanded_variable_congr (w w2 : World) (gvfs : String)
    (h : w.files gvfs = w2.files gvfs) :
    get_expanded_variable w gvfs = get_expanded_variable w2 gvfs := by
  unfold get_expanded_variable
  rw [h]

theorem version_from_expanded_variable_congr (w w2 : World) (s tagPfx : String)
    (h0 : w.gitDir = w2.gitDir) (h1 : w.spawnOk = w2.spawnOk)
    (h2 : w.exitCode = w2.exitCode) (h3 : w.stdoutRaw = w2.stdoutRaw) :
    version_from_expanded_variable w s tagPfx = version_from_expanded_variable w2 s tagPfx := by
  unfold version_from_expanded_variable
  rw [version_from_vcs_congr w w2 tagPfx h0 h1 h2 h3]

theorem version_from_file_congr (w w2 : World) (vf : String)
    (h : w.files vf = w2.files vf) :
    version_from_file w vf = version_from_file w2 vf := by
  unfold version_from_file
  rw [h]

theorem version_from_parentdir_congr (w w2 : World) (tagPfx pdPfx : String)
    (h : w.scriptDirName = w2.scriptDirName) :
    version_from_parentdir w tagPfx pdPfx = version_from_parentdir w2 tagPfx pdPfx := by
  unfold version_from_parentdir
  rw [h]

/-- C7 as amended: the resolver is a function of its explicit arguments,
the modelled `versionfile_source` global, and exactly the ambient state it
consults — the `.git` test, the describe-spawn outcome, the file named by
the global (the expanded-variable scan reads that file, not the
`versionfile` argument), the file named by the `versionfile` argument, and
the script directory name.  Two worlds agreeing on those components give
the same resolution. -/
theorem C7_explicit_state_frame (w w2 : World) (gvfs vf tagPfx pdPfx : String)
    (d : Option String)
    (h0 : w.gitDir = w2.gitDir) (h1 : w.spawnOk = w2.spawnOk)
    (h2 : w.exitCode = w2.exitCode) (h3 : w.stdoutRaw = w2.stdoutRaw)
    (h4 : w.files gvfs = w2.files gvfs) (h5 : w.files vf = w2.files vf)
    (h6 : w.scriptDirName = w2.scriptDirName) :
    get_best_version w gvfs vf tagPfx pdPfx d =
      get_best_version w2 gvfs vf tagPfx pdPfx d := by
  have hv := version_from_vcs_congr w w2 tagPfx h0 h1 h2 h3
  have hge := get_expanded_variable_congr w w2 gvfs h4
  have hm2 : method2 w gvfs tagPfx = method2 w2 gvfs tagPfx := by
    unfold method2
    rw [hge]
    cases get_expanded_variable w2 gvfs with
    | none => rfl
    | some s =>
      by_cases hs : s = ""
      · simp [hs]
      · simp [hs, version_from_expanded_variable_congr w w2 s tagPfx h0 h1 h2 h3]
  have hf := version_from_file_congr w w2 vf h5
  have hp := version_from_parentdir_congr w w2 tagPfx pdPfx h6
  unfold get_best_version chain2345 chain345 chain45
  rw [hv, hm2, hf, hp]

/-- Witness for the amended C7: adding an unrelated file and changing the
recorded spawn-error text leaves the resolution unchanged. -/
theorem C7_explicit_state_frame_witness :
    get_best_version wTwoFiles "A" "C" "v" "zz-" (some "D") =
      get_best_version wTwoFilesNoise "A" "C" "v" "zz-" (some "D") :=
  C7_explicit_state_frame wTwoFiles wTwoFilesNoise "A" "C" "v" "zz-" (some "D")
    rfl rfl rfl rfl (by decide) (by decide) rfl

theorem findSome?_split {α β : Type} (f : α → Option β) :
    ∀ (l : List α) (b : β), l.findSome? f = some b →
      ∃ l1 a l2, l = l1 ++ a :: l2 ∧ f a = some b ∧ ∀ x ∈ l1, f x = none
  | [], b, h => by simp at h
  | a :: t, b, h => by
    rw [List.findSome?_cons] at h
    cases hfa : f a with
    | some c =>
      rw [hfa] at h
      refine ⟨[], a, t, by simp, ?_, fun x hx => absurd hx (List.not_mem_nil x)⟩
      rw [hfa, Option.some.inj h]
    | none =>
      rw [hfa] at h
      obtain ⟨l1, a2, l2, heq, hfa2, hnone⟩ := findSome?_split f t b h
      refine ⟨a :: l1, a2, l2, by rw [heq]; rfl, hfa2, ?_⟩
      intro x hx
      rcases List.mem_cons.mp hx with hxa | hxl
      · rw [hxa]
        exact hfa
      · exact hnone x hxl

theorem dropWhile_head_false (p : Char → Bool) :
    ∀ {l : List Char} {c : Char} {t : List Char}, l.dropWhile p = c :: t → p c = false := by
  intro l
  induction l with
  | nil =>
    intro c t h
    simp at h
  | cons a l2 ih =>
    intro c t h
    cases hp : p a
    · rw [List.dropWhile_cons_of_neg (by simp [hp])] at h
      rw [← (List.cons.inj h).1]
      exact hp
    · rw [List.dropWhile_cons_of_pos hp] at h
      exact ih h

/-- Structure of a successful match of the line regex: the group is
non-empty, quote-free, and the line literally consists of the head, the
group, a closing quote, and a remainder. -/
theorem matchVersionChars_spec (cs ver : List Char) (h : matchVersionChars cs = some ver) :
    ver ≠ [] ∧ (∀ c ∈ ver, (c == '\'') = false) ∧
      ∃ t, cs = versionLineHead ++ ver ++ '\'' :: t := by
  simp only [matchVersionChars] at h
  by_cases hpre : versionLineHead.isPrefixOf cs = true
  case neg =>
    rw [if_neg hpre] at h
    cases h
  rw [if_pos hpre] at h
  by_cases he : ((cs.drop versionLineHead.length).takeWhile (fun ch => ch != '\'')).isEmpty = true
  case pos =>
    rw [if_pos he] at h
    cases h
  rw [if_neg he] at h
  by_cases hd : ((cs.drop versionLineHead.length).dropWhile (fun ch => ch != '\'')).isEmpty = true
  case pos =>
    rw [if_pos hd] at h
    cases h
  rw [if_neg hd] at h
  have hver : ver = (cs.drop versionLineHead.length).takeWhile (fun ch => ch != '\'') :=
    (Option.some.inj h).symm
  obtain ⟨t2, ht2⟩ := List.isPrefixOf_iff_prefix.mp hpre
  have hdrop : cs.drop versionLineHead.length = t2 := by
    rw [← ht2]
    exact List.drop_left versionLineHead t2
  rw [hdrop] at hver he hd
  have hsplit : t2.takeWhile (fun ch => ch != '\'') ++ t2.dropWhile (fun ch => ch != '\'') = t2 :=
    List.takeWhile_append_dropWhile _ _
  cases hdw : t2.dropWhile (fun ch => ch != '\'') with
  | nil =>
    rw [hdw] at hd
    simp at hd
  | cons c t3 =>
    have hc : (c != '\'') = false := dropWhile_head_false (fun ch => ch != '\'') hdw
    have hceq : c = '\'' := by simpa using hc
    refine ⟨?_, ?_, t3, ?_⟩
    · intro hnil
      exact he (by rw [← hver, hnil]; rfl)
    · intro c2 hc2
      rw [hver] at hc2
      have hmem := List.mem_takeWhile_imp hc2
      simpa using hmem
    · rw [← ht2, ← hsplit, hdw, ← hver, hceq, List.append_assoc]

/-- C10: the plain-version-file method never returns the empty string —
its regex requires at least one character between the quotes, so the line
consisting of the head and an immediately closing quote (that is,
`__version__ = ''`) does not match — and any returned value is a non-empty
quote-free string copied verbatim from the first matching line of the
file. -/
theorem C10_version_file_value (w : World) (vf v : String)
    (h : version_from_file w vf = some v) :
    (v ≠ "" ∧
     ∃ lines l1 line l2 t, w.files vf = some lines ∧ lines = l1 ++ line :: l2 ∧
       (∀ x ∈ l1, matchVersionChars x.data = none) ∧
       line.data = versionLineHead ++ v.data ++ '\'' :: t ∧
       (∀ c ∈ v.data, (c == '\'') = false)) ∧
    matchVersionChars (versionLineHead ++ ['\'']) = none := by
  refine ⟨?_, by decide⟩
  unfold version_from_file at h
  cases hf : w.files vf with
  | none =>
    rw [hf] at h
    cases h
  | some lines =>
    rw [hf] at h
    obtain ⟨l1, line, l2, hsplit, hfl, hnone⟩ := findSome?_split _ lines v h
    obtain ⟨ver, hmv, hmk⟩ := Option.map_eq_some'.mp hfl
    obtain ⟨hne, hquot, t, hdecomp⟩ := matchVersionChars_spec line.data ver hmv
    have hvd : v.data = ver := by rw [← hmk]
    refine ⟨?_, lines, l1, line, l2, t, rfl, hsplit, ?_, ?_, ?_⟩
    · intro h0
      apply hne
      rw [← hvd, h0]
    · intro x hx
      have hfx := hnone x hx
      exact Option.map_eq_none'.mp hfx
    · rw [hvd]
      exact hdecomp
    · intro c hc
      rw [hvd] at hc
      exact hquot c hc

/-- Witness for C10 at a concrete file holding `__version__ = 'from3'`. -/
theorem C10_version_file_value_witness :
    (("from3" : String) ≠ "" ∧
     ∃ lines l1 line l2 t, wPlainFile.files "P" = some lines ∧ lines = l1 ++ line :: l2 ∧
       (∀ x ∈ l1, matchVersionChars x.data = none) ∧
       line.data = versionLineHead ++ ("from3" : String).data ++ '\'' :: t ∧
       (∀ c ∈ ("from3" : String).data, (c == '\'') = false)) ∧
    matchVersionChars (versionLineHead ++ ['\'']) = none :=
  C10_version_file_value wPlainFile "P" "from3" (by decide)

theorem run_command_v_fst (w : World) (b : Bool) :
    (run_command_v w b).1 = run_command w := by
  unfold run_command_v run_command
  by_cases h1 : w.spawnOk = false
  · simp [h1]
  · by_cases h2 : w.exitCode ≠ 0 <;> simp [h1, h2]

theorem version_from_vcs_v_fst (w : World) (tagPfx : String) (b : Bool) :
    (version_from_vcs_v w tagPfx b).1 = version_from_vcs w tagPfx := by
  unfold version_from_vcs_v version_from_vcs
  by_cases h0 : w.gitDir = false
  · simp [h0]
  · rw [if_neg h0, if_neg h0]
    simp only [run_command_v_fst]
    cases hr : run_command w with
    | none => simp
    | some stdout =>
      by_cases hp : tagPfx.data.isPrefixOf stdout.data <;> simp [hp]

theorem version_from_parentdir_v_fst (w : World) (tagPfx pdPfx : String) (b : Bool) :
    (version_from_parentdir_v w tagPfx pdPfx b).1 = version_from_parentdir w tagPfx pdPfx := by
  unfold version_from_parentdir_v version_from_parentdir
  by_cases hp : pdPfx.data.isPrefixOf w.scriptDirName.data <;> simp [hp]

/-- C8: the verbose flag is purely observational — the result component of
the verbose-instrumented resolver is independent of the flag and equal to
the plain resolver on every configuration and ambient state; only the
emitted diagnostic text differs. -/
theorem C8_verbose_invariant (w : World) (gvfs vf tagPfx pdPfx : String) (d : Option String) :
    (∀ b, (get_best_version_v w gvfs vf tagPfx pdPfx d b).1 =
       get_best_version w gvfs vf tagPfx pdPfx d) ∧
    (get_best_version_v w gvfs vf tagPfx pdPfx d true).1 =
      (get_best_version_v w gvfs vf tagPfx pdPfx d false).1 := by
  have key : ∀ b, (get_best_version_v w gvfs vf tagPfx pdPfx d b).1 =
      get_best_version w gvfs vf tagPfx pdPfx d := by
    intro b
    unfold get_best_version_v get_best_version chain2345 chain345 chain45
    cases hv : version_from_vcs w tagPfx <;>
      cases hm2 : method2 w gvfs tagPfx <;>
        cases hf : version_from_file w vf <;>
          cases hp : version_from_parentdir w tagPfx pdPfx <;>
            cases d <;>
              simp [version_from_vcs_v_fst, version_from_parentdir_v_fst, hv, hm2, hf, hp]
  exact ⟨key, by rw [key true, key false]⟩

theorem count_spawn_cons_fileRead (p : String) (l : List Effect) :
    (Effect.fileRead p :: l).count (Effect.spawn GIT_DESCRIBE_ARGS) =
      l.count (Effect.spawn GIT_DESCRIBE_ARGS) := by
  rw [List.count_cons]
  simp

theorem vcs_t_spawn_count (w : World) (tagPfx : String) :
    (version_from_vcs_t w tagPfx).2.count (Effect.spawn GIT_DESCRIBE_ARGS) =
      if w.gitDir then 1 else 0 := by
  cases hg : w.gitDir
  · simp only [version_from_vcs_t, hg]
    decide
  · simp only [version_from_vcs_t, hg]
    decide

theorem method2_t_fst (w : World) (gvfs tagPfx : String) :
    (method2_t w gvfs tagPfx).1 = method2 w gvfs tagPfx := by
  unfold method2_t method2
  cases hge : get_expanded_variable w gvfs with
  | none => rfl
  | some s =>
    by_cases hs : s = ""
    · simp [hs]
    · by_cases hmk : containsSub FORMAT_MARKER (pyStripList s.data) = true
      · simp [hs, version_from_expanded_variable_t, hmk, version_from_vcs_t,
          version_from_expanded_variable]
      · simp [hs, version_from_expanded_variable_t, hmk]

theorem method2_t_spawn_count (w : World) (gvfs tagPfx : String) :
    (method2_t w gvfs tagPfx).2.count (Effect.spawn GIT_DESCRIBE_ARGS) ≤ 1 := by
  unfold method2_t
  cases hge : get_expanded_variable w gvfs with
  | none => simp [count_spawn_cons_fileRead]
  | some s =>
    by_cases hs : s = ""
    · simp [hs, count_spawn_cons_fileRead]
    · by_cases hmk : containsSub FORMAT_MARKER (pyStripList s.data) = true
      · cases hg : w.gitDir <;>
          simp [hs, version_from_expanded_variable_t, hmk, count_spawn_cons_fileRead,
            vcs_t_spawn_count, hg]
      · simp [hs, version_from_expanded_variable_t, hmk, count_spawn_cons_fileRead]

theorem get_best_version_t_fst (w : World) (gvfs vf tagPfx pdPfx : String) (d : Option String) :
    (get_best_version_t w gvfs vf tagPfx pdPfx d).1 =
      get_best_version w gvfs vf tagPfx pdPfx d := by
  unfold get_best_version_t get_best_version chain2345 chain345 chain45
  cases hv : version_from_vcs w tagPfx <;>
    cases hm : method2 w gvfs tagPfx <;>
      cases hf : version_from_file w vf <;>
        cases hp : version_from_parentdir w tagPfx pdPfx <;>
          simp [version_from_vcs_t, version_from_file_t, version_from_parentdir_t,
            method2_t_fst, hv, hm, hf, hp]

theorem get_best_version_t_snd (w : World) (gvfs vf tagPfx pdPfx : String) (d : Option String) :
    (get_best_version_t w gvfs vf tagPfx pdPfx d).2 =
      (version_from_vcs_t w tagPfx).2 ++
        (if version_from_vcs w tagPfx = none then
          (method2_t w gvfs tagPfx).2 ++
            (if method2 w gvfs tagPfx = none then [Effect.fileRead vf] else [])
        else []) := by
  unfold get_best_version_t
  cases hv : version_from_vcs w tagPfx <;>
    cases hm : method2 w gvfs tagPfx <;>
      cases hf : version_from_file w vf <;>
        cases hp : version_from_parentdir w tagPfx pdPfx <;>
          simp [version_from_vcs_t, version_from_file_t, version_from_parentdir_t,
            method2_t_fst, hv, hm, hf, hp]

theorem trace_mem (w : World) (gvfs vf tagPfx pdPfx : String) (d : Option String) (e : Effect)
    (he : e ∈ (get_best_version_t w gvfs vf tagPfx pdPfx d).2) :
    e = Effect.statDir ".git" ∨ e = Effect.fileRead gvfs ∨ e = Effect.fileRead vf ∨
      (e = Effect.spawn GIT_DESCRIBE_ARGS ∧ w.gitDir = true) := by
  rw [get_best_version_t_snd] at he
  rcases List.mem_append.mp he with h | h
  · cases hg : w.gitDir
    · simp [version_from_vcs_t, hg] at h
      exact Or.inl h
    · simp [version_from_vcs_t, hg] at h
      rcases h with h | h
      · exact Or.inl h
      · exact Or.inr (Or.inr (Or.inr ⟨h, rfl⟩))
  · by_cases hv : version_from_vcs w tagPfx = none
    case neg =>
      rw [if_neg hv] at h
      exact absurd h (List.not_mem_nil e)
    rw [if_pos hv] at h
    rcases List.mem_append.mp h with h | h
    · unfold method2_t at h
      cases hge : get_expanded_variable w gvfs with
      | none =>
        rw [hge] at h
        simp at h
        exact Or.inr (Or.inl h)
      | some s =>
        rw [hge] at h
        by_cases hs : s = ""
        · simp [hs] at h
          exact Or.inr (Or.inl h)
        · simp [hs] at h
          rcases h with h | h
          · exact Or.inr (Or.inl h)
          · unfold version_from_expanded_variable_t at h
            by_cases hmk : containsSub FORMAT_MARKER (pyStripList s.data) = true
            · rw [if_pos hmk] at h
              cases hg : w.gitDir
              · simp [version_from_vcs_t, hg] at h
                exact Or.inl h
              · simp [version_from_vcs_t, hg] at h
                rcases h with h | h
                · exact Or.inl h
                · exact Or.inr (Or.inr (Or.inr ⟨h, rfl⟩))
            · rw [if_neg hmk] at h
              simp at h
    · by_cases hm : method2 w gvfs tagPfx = none
      case neg =>
        rw [if_neg hm] at h
        exact absurd h (List.not_mem_nil e)
      rw [if_pos hm] at h
      simp at h
      exact Or.inr (Or.inr (Or.inl h))

/-- C9: one resolution spawns external processes only from the
VCS-describe method (at most twice: once directly and once via the
expanded-variable delegation), always with the fixed `git describe`
argument vector and only when the `.git` test passed, with one `Popen`
attempt per passing invocation; the other methods only read the two
configured files; and no write effect ever occurs in the trace. -/
theorem C9_effects (w : World) (gvfs vf tagPfx pdPfx : String) (d : Option String) :
    (get_best_version_t w gvfs vf tagPfx pdPfx d).1 =
      get_best_version w gvfs vf tagPfx pdPfx d ∧
    (∀ p, Effect.fileWrite p ∉ (get_best_version_t w gvfs vf tagPfx pdPfx d).2) ∧
    (∀ args, Effect.spawn args ∈ (get_best_version_t w gvfs vf tagPfx pdPfx d).2 →
       args = GIT_DESCRIBE_ARGS ∧ w.gitDir = true) ∧
    (get_best_version_t w gvfs vf tagPfx pdPfx d).2.count
      (Effect.spawn GIT_DESCRIBE_ARGS) ≤ 2 ∧
    (version_from_vcs_t w tagPfx).2.count (Effect.spawn GIT_DESCRIBE_ARGS) =
      (if w.gitDir then 1 else 0) ∧
    (version_from_file_t w vf).2 = [Effect.fileRead vf] ∧
    (version_from_parentdir_t w tagPfx pdPfx).2 = [] ∧
    (∀ s, containsSub FORMAT_MARKER (pyStripList s.data) = false →
       (version_from_expanded_variable_t w s tagPfx).2 = []) := by
  refine ⟨get_best_version_t_fst w gvfs vf tagPfx pdPfx d, ?_, ?_, ?_,
    vcs_t_spawn_count w tagPfx, rfl, rfl, ?_⟩
  · intro p hmem
    rcases trace_mem w gvfs vf tagPfx pdPfx d _ hmem with h | h | h | ⟨h, _⟩ <;>
      exact Effect.noConfusion h
  · intro args hmem
    rcases trace_mem w gvfs vf tagPfx pdPfx d _ hmem with h | h | h | ⟨h, hg⟩
    · exact Effect.noConfusion h
    · exact Effect.noConfusion h
    · exact Effect.noConfusion h
    · exact ⟨Effect.spawn.inj h, hg⟩
  · rw [get_best_version_t_snd, List.count_append]
    have hA : (version_from_vcs_t w tagPfx).2.count (Effect.spawn GIT_DESCRIBE_ARGS) ≤ 1 := by
      rw [vcs_t_spawn_count]
      cases hg : w.gitDir <;> simp
    have hB : (if version_from_vcs w tagPfx = none then
        (method2_t w gvfs tagPfx).2 ++
          (if method2 w gvfs tagPfx = none then [Effect.fileRead vf] else [])
      else []).count (Effect.spawn GIT_DESCRIBE_ARGS) ≤ 1 := by
      by_cases hv : version_from_vcs w tagPfx = none
      · rw [if_pos hv, List.count_append]
        have hm2c := method2_t_spawn_count w gvfs tagPfx
        have hfr : (if method2 w gvfs tagPfx = none then [Effect.fileRead vf]
            else []).count (Effect.spawn GIT_DESCRIBE_ARGS) = 0 := by
          by_cases hm : method2 w gvfs tagPfx = none
          · rw [if_pos hm, count_spawn_cons_fileRead]
            rfl
          · rw [if_neg hm]
            rfl
        omega
      · rw [if_neg hv]
        simp
    omega
  · intro s hmk
    simp [version_from_expanded_variable_t, hmk]

/-- Witness for C9 at a concrete run that reaches the plain version file:
the trace refinement and the spawn-count bound instantiated. -/
theorem C9_effects_witness :
    (get_best_version_t wPlainFile "F" "P" "v" "zz-" none).1 =
      get_best_version wPlainFile "F" "P" "v" "zz-" none ∧
    (get_best_version_t wPlainFile "F" "P" "v" "zz-" none).2.count
      (Effect.spawn GIT_DESCRIBE_ARGS) ≤ 2 :=
  ⟨(C9_effects wPlainFile "F" "P" "v" "zz-" none).1,
   (C9_effects wPlainFile "F" "P" "v" "zz-" none).2.2.2.1⟩
